import Mathlib

/-!
Verification of the ivy dispatch/container core against its specification.

The Python sources under `src/` provide the `Container` mixin methods
(`ivy/container/manipulation.py`, `general.py`, `losses.py`), the `Array`
mixin methods (`ivy/array/general.py`, `manipulation.py`), the numpy
backend random functions (`ivy/functional/backends/numpy/random.py`) and
the test conversion helper (`ivy_tests/test_ivy/helpers.py`).  The
`ContainerBase` map engine, the functional `ivy.<op>` dispatch layer and
the backend resolver are not part of the provided sources; they are
modelled from the specification (each such definition carries a doc
comment starting with `Modelled from the spec:`).

Data model: native arrays are one-dimensional integer arrays
(`List Int`); scalars are integers.  This is the standard integer
abstraction of the numeric leaf values; none of the verified properties
depend on floating point behaviour.
-/

set_option linter.unusedVariables false

/-- Leaf values stored in a container: a native 1-D array, a scalar, or
the Python `None` value (used for absent `axis` arguments). -/
inductive Val where
  | arr (data : List Int)
  | int (n : Int)
  | null
deriving DecidableEq

/-- A container node.  `ivy.Container` is a recursive ordered string-keyed
mapping; here an entry list is encoded positionally: a container is
either `nil` (empty) or `cons k v rest` where `v` is the value stored at
key `k` (a leaf or a nested container) and `rest` holds the remaining
entries of the same mapping level. -/
inductive Node where
  | leaf (v : Val)
  | nil
  | cons (k : String) (child : Node) (rest : Node)
deriving DecidableEq

/-- Error taxonomy of the spec (section 7). -/
inductive Err where
  | structureMismatch
  | shapeMismatch
  | keyChainMismatch
  | unavailableBackend
  | fuelExhausted
deriving DecidableEq

instance {e a : Type} [DecidableEq e] [DecidableEq a] : DecidableEq (Except e a) := fun x y =>
  match x, y with
  | .ok v, .ok w => if h : v = w then isTrue (by rw [h]) else isFalse (by simp [h])
  | .error v, .error w => if h : v = w then isTrue (by rw [h]) else isFalse (by simp [h])
  | .ok _, .error _ => isFalse (by simp)
  | .error _, .ok _ => isFalse (by simp)

namespace Node

/-- Whether a node is a (non-empty) container entry list. -/
def isCons : Node → Bool
  | .cons _ _ _ => true
  | _ => false

/-- Whether a node is the empty container. -/
def isNil : Node → Bool
  | .nil => true
  | _ => false

/-- Whether a node is a non-container leaf. -/
def isLeaf : Node → Bool
  | .leaf _ => true
  | _ => false

/-- Size measure used as a recursion bound for the lock-step walk. -/
def nsize : Node → Nat
  | .leaf _ => 1
  | .nil => 1
  | .cons _ c r => 1 + nsize c + nsize r

end Node

@[simp] theorem Node.isCons_leaf (v : Val) : (Node.leaf v).isCons = false := rfl

@[simp] theorem Node.isCons_nil : (Node.nil).isCons = false := rfl

@[simp] theorem Node.isCons_cons (k : String) (c r : Node) :
    (Node.cons k c r).isCons = true := rfl

@[simp] theorem Node.isNil_leaf (v : Val) : (Node.leaf v).isNil = false := rfl

@[simp] theorem Node.isNil_nil : (Node.nil).isNil = true := rfl

@[simp] theorem Node.isNil_cons (k : String) (c r : Node) :
    (Node.cons k c r).isNil = false := rfl

@[simp] theorem Node.isLeaf_leaf (v : Val) : (Node.leaf v).isLeaf = true := rfl

@[simp] theorem Node.isLeaf_nil : (Node.nil).isLeaf = false := rfl

@[simp] theorem Node.isLeaf_cons (k : String) (c r : Node) :
    (Node.cons k c r).isLeaf = false := rfl

/-- Dot-delimited key-chain extension (spec section 3: a key-chain is a
dot-delimited string path addressing a node). -/
def extendChain (kc k : String) : String :=
  if kc = "" then k else kc ++ "." ++ k

/-- Modelled from the spec: the key-chain selector (section 3).  With
`key_chains = none` every chain is selected; with `to_apply = true` only
the listed chains are selected; with `to_apply = false` all chains except
the listed ones are selected. -/
def selected (key_chains : Option (List String)) (to_apply : Bool) (chain : String) : Bool :=
  match key_chains with
  | none => true
  | some l => if to_apply then l.contains chain else !(l.contains chain)

/-- Modelled from the spec: `ContainerBase.map` (section 4.3; the file
`ivy/container/base.py` is not under `src/`).  Produces a new container
with the same key ordering; every leaf whose key-chain is selected is
replaced by `fn leaf chain`; an unselected leaf is passed through
unchanged, or dropped when `prune_unapplied` is set.  Traversal is
depth-first in key order.  (`map_sequences` is not modelled: the data
model has no sequence leaves.) -/
def cmap (fn : Val → String → Val) (key_chains : Option (List String))
    (to_apply prune_unapplied : Bool) : String → Node → Node
  | _, .leaf v => .leaf v
  | _, .nil => .nil
  | kc, .cons k c r =>
    let chain := extendChain kc k
    let rest := cmap fn key_chains to_apply prune_unapplied kc r
    match c with
    | .leaf v =>
      if selected key_chains to_apply chain then .cons k (.leaf (fn v chain)) rest
      else if prune_unapplied then rest
      else .cons k (.leaf v) rest
    | c => .cons k (cmap fn key_chains to_apply prune_unapplied chain c) rest

/-- The key-chain/value pairs of all leaves of a node, in depth-first key
order, with chains accumulated from the prefix `kc`.  This plays the role
of `toList` in the specification of the map engine. -/
def leavesFrom : String → Node → List (String × Val)
  | kc, .leaf v => [(kc, v)]
  | _, .nil => []
  | kc, .cons k c r => leavesFrom (extendChain kc k) c ++ leavesFrom kc r

/-- A node is well-shaped when every `rest` position holds an entry list
(`nil` or `cons`), never a bare leaf. -/
def wfc : Node → Bool
  | .leaf _ => true
  | .nil => true
  | .cons _ c r => wfc c && (wfc r && !r.isLeaf)

theorem leavesFrom_cmap (fn : Val → String → Val) (kcs : Option (List String))
    (ta pr : Bool) :
    ∀ (c : Node) (kc : String), wfc c = true → c.isLeaf = false →
    leavesFrom kc (cmap fn kcs ta pr kc c) =
      (leavesFrom kc c).filterMap (fun pv =>
        if selected kcs ta pv.1 then some (pv.1, fn pv.2 pv.1)
        else if pr then none else some pv) := by
  intro c
  induction c with
  | leaf v => intro kc _ hl; simp [Node.isLeaf] at hl
  | nil => intro kc _ _; simp [cmap, leavesFrom]
  | cons k c r ihc ihr =>
    intro kc hwf _
    simp only [wfc, Bool.and_eq_true, Bool.not_eq_true'] at hwf
    obtain ⟨hwc, hwr, hrl⟩ := hwf
    have hr := ihr kc hwr hrl
    cases c with
    | leaf v =>
      simp only [cmap, leavesFrom, List.filterMap_append, List.filterMap]
      by_cases hs : selected kcs ta (extendChain kc k) = true
      · simp [hs, leavesFrom, hr]
      · simp only [Bool.not_eq_true] at hs
        cases pr with
        | true => simp [hs, hr]
        | false => simp [hs, leavesFrom, hr]
    | nil =>
      simp only [cmap, leavesFrom, List.filterMap_append]
      have hc := ihc (extendChain kc k) hwc rfl
      simp [cmap, leavesFrom] at hc ⊢
      exact hr
    | cons k2 c2 r2 =>
      simp only [cmap, leavesFrom, List.filterMap_append]
      have hc := ihc (extendChain kc k) hwc rfl
      rw [hc, hr]
      simp [leavesFrom, List.filterMap_append, List.append_assoc]

/-! ### The multi_map lock-step walk -/

/-- The value under a key entry; a non-`cons` node is returned unchanged
(this is how non-container leaves are broadcast during the lock-step
walk). -/
def childOf : Node → Node
  | .cons _ c _ => c
  | x => x

/-- The remaining entries of a key entry; a non-`cons` node is returned
unchanged (broadcast). -/
def restOf : Node → Node
  | .cons _ _ r => r
  | x => x

/-- The key of the first container entry in the forest, if any. -/
def headKey : List Node → Option String
  | [] => none
  | .cons k _ _ :: _ => some k
  | _ :: xs => headKey xs

/-- Whether every container in the forest currently exposes the key `k`:
leaves are always aligned (broadcast), an empty container next to a
non-empty one is a structure divergence. -/
def alignedAt (k : String) (xs : List Node) : Bool :=
  xs.all fun x =>
    match x with
    | .leaf _ => true
    | .cons k2 _ _ => k2 == k
    | .nil => false

/-- The leaf values of a forest position, in input order. -/
def leafVals (xs : List Node) : List Val :=
  xs.filterMap fun x => match x with | .leaf v => some v | _ => none

/-- First leaf value of a forest position (pass-through value for an
unselected chain). -/
def firstLeafVal (xs : List Node) : Val :=
  (leafVals xs).headD .null

/-- Combined size of a forest, the termination bound of the lock-step
walk. -/
def sizeL (xs : List Node) : Nat :=
  (xs.map Node.nsize).sum

/-- Modelled from the spec: `ContainerBase.multi_map` (section 4.3; the
file `ivy/container/base.py` is not under `src/`).  Walks the given
containers and/or plain leaves in lock-step: plain leaves are broadcast
across all key-chains, aligned leaf positions are replaced by
`fn leaves chain` when the chain is selected, and the walk fails with
`StructureMismatchError` when the containers diverge in key structure at
a visited node.  An empty forest yields the empty container.  The `fuel`
argument is a structural recursion bound; `multiMap` below supplies
`sizeL xs + 1`, which is always sufficient. -/
def multiMapF (fn : List Val → String → Val) (kcs : Option (List String))
    (ta pr : Bool) : Nat → String → List Node → Except Err Node
  | 0, _, _ => .error .fuelExhausted
  | fuel + 1, kc, xs =>
    if xs.isEmpty then .ok .nil
    else if xs.any Node.isCons then
      match headKey xs with
      | none => .error .structureMismatch
      | some k =>
        if alignedAt k xs then
          match
            (if (xs.map childOf).any Node.isCons || (xs.map childOf).any Node.isNil then
              (multiMapF fn kcs ta pr fuel (extendChain kc k) (xs.map childOf)).map some
            else if selected kcs ta (extendChain kc k) then
              .ok (some (.leaf (fn (leafVals (xs.map childOf)) (extendChain kc k))))
            else if pr then .ok none
            else .ok (some (.leaf (firstLeafVal (xs.map childOf)))) :
              Except Err (Option Node)) with
          | .error e => .error e
          | .ok hd =>
            match multiMapF fn kcs ta pr fuel kc (xs.map restOf) with
            | .error e => .error e
            | .ok rest =>
              match hd with
              | some h => .ok (.cons k h rest)
              | none => .ok rest
        else .error .structureMismatch
    else if xs.any Node.isNil then .ok .nil
    else .ok (.leaf (fn (leafVals xs) kc))

/-- Modelled from the spec: `ContainerBase.multi_map` with the fuel bound
instantiated. -/
def multiMap (fn : List Val → String → Val) (kcs : Option (List String))
    (ta pr : Bool) (kc : String) (xs : List Node) : Except Err Node :=
  multiMapF fn kcs ta pr (sizeL xs + 1) kc xs

theorem nsize_pos (x : Node) : 0 < x.nsize := by
  cases x <;> simp [Node.nsize]

theorem nsize_childOf_le (x : Node) : (childOf x).nsize ≤ x.nsize := by
  cases x <;> simp only [childOf, Node.nsize] <;> omega

theorem nsize_restOf_le (x : Node) : (restOf x).nsize ≤ x.nsize := by
  cases x <;> simp only [restOf, Node.nsize] <;> omega

theorem sizeL_cons (x : Node) (xs : List Node) :
    sizeL (x :: xs) = x.nsize + sizeL xs := by
  simp [sizeL]

theorem sizeL_map_le (f : Node → Node) (hf : ∀ x, (f x).nsize ≤ x.nsize)
    (xs : List Node) : sizeL (xs.map f) ≤ sizeL xs := by
  induction xs with
  | nil => simp [sizeL]
  | cons y ys ih =>
    simp only [List.map_cons, sizeL_cons]
    have := hf y
    omega

theorem sizeL_map_lt (f : Node → Node) (hf : ∀ x, (f x).nsize ≤ x.nsize)
    (hs : ∀ x, x.isCons = true → (f x).nsize < x.nsize)
    (xs : List Node) (h : xs.any Node.isCons = true) :
    sizeL (xs.map f) < sizeL xs := by
  induction xs with
  | nil => simp at h
  | cons x xs ih =>
    simp only [List.any_cons, Bool.or_eq_true] at h
    simp only [List.map_cons, sizeL_cons]
    rcases h with h | h
    · have := hs x h
      have := sizeL_map_le f hf xs
      omega
    · have := ih h
      have := hf x
      omega

theorem nsize_childOf_lt (x : Node) (h : x.isCons = true) :
    (childOf x).nsize < x.nsize := by
  cases x with
  | leaf v => simp [Node.isCons] at h
  | nil => simp [Node.isCons] at h
  | cons k c r => simp only [childOf, Node.nsize]; omega

theorem nsize_restOf_lt (x : Node) (h : x.isCons = true) :
    (restOf x).nsize < x.nsize := by
  cases x with
  | leaf v => simp [Node.isCons] at h
  | nil => simp [Node.isCons] at h
  | cons k c r => simp only [restOf, Node.nsize]; omega

theorem sizeL_map_childOf_lt (xs : List Node) (h : xs.any Node.isCons = true) :
    sizeL (xs.map childOf) < sizeL xs :=
  sizeL_map_lt childOf nsize_childOf_le nsize_childOf_lt xs h

theorem sizeL_map_restOf_lt (xs : List Node) (h : xs.any Node.isCons = true) :
    sizeL (xs.map restOf) < sizeL xs :=
  sizeL_map_lt restOf nsize_restOf_le nsize_restOf_lt xs h

theorem multiMapF_error_sm (fn : List Val → String → Val) (kcs : Option (List String))
    (ta pr : Bool) :
    ∀ (fuel : Nat) (kc : String) (xs : List Node) (e : Err), sizeL xs < fuel →
      multiMapF fn kcs ta pr fuel kc xs = .error e → e = .structureMismatch := by
  intro fuel
  induction fuel with
  | zero => intro kc xs e h _; omega
  | succ m ih =>
    intro kc xs e hs hm
    simp only [multiMapF] at hm
    by_cases he : xs.isEmpty
    · simp [he] at hm
    · simp only [he, if_false, Bool.false_eq_true] at hm
      by_cases hc : xs.any Node.isCons
      · simp only [hc, if_true] at hm
        cases hk : headKey xs with
        | none => simp [hk] at hm; exact hm.symm
        | some k =>
          simp only [hk] at hm
          by_cases ha : alignedAt k xs
          · simp only [ha, if_true] at hm
            have hchild : sizeL (xs.map childOf) < m := by
              have := sizeL_map_childOf_lt xs hc
              omega
            have hrest : sizeL (xs.map restOf) < m := by
              have := sizeL_map_restOf_lt xs hc
              omega
            -- analyse the head computation
            by_cases hcc : (xs.map childOf).any Node.isCons || (xs.map childOf).any Node.isNil
            · simp only [hcc, if_true] at hm
              cases hrec : multiMapF fn kcs ta pr m (extendChain kc k) (xs.map childOf) with
              | error e2 =>
                simp only [hrec, Except.map] at hm
                cases hm
                exact ih _ _ _ hchild hrec
              | ok hd =>
                simp only [hrec, Except.map] at hm
                cases hrec2 : multiMapF fn kcs ta pr m kc (xs.map restOf) with
                | error e3 =>
                  simp only [hrec2] at hm
                  cases hm
                  exact ih _ _ _ hrest hrec2
                | ok rest =>
                  simp only [hrec2] at hm
                  cases hd <;> simp at hm
            · simp only [hcc, if_false, Bool.false_eq_true] at hm
              cases hrec2 : multiMapF fn kcs ta pr m kc (xs.map restOf) with
              | error e3 =>
                by_cases hsel : selected kcs ta (extendChain kc k)
                · simp only [hsel, if_true, hrec2] at hm
                  cases hm
                  exact ih _ _ _ hrest hrec2
                · by_cases hpr : pr
                  · subst hpr
                    simp only [hsel, Bool.false_eq_true, if_false, if_true, hrec2] at hm
                    cases hm
                    exact ih _ _ _ hrest hrec2
                  · simp only [Bool.not_eq_true] at hpr
                    subst hpr
                    simp only [hsel, Bool.false_eq_true, if_false, hrec2] at hm
                    cases hm
                    exact ih _ _ _ hrest hrec2
              | ok rest =>
                by_cases hsel : selected kcs ta (extendChain kc k)
                · simp [hsel, hrec2] at hm
                · by_cases hpr : pr
                  · subst hpr
                    simp [hsel, hrec2] at hm
                  · simp only [Bool.not_eq_true] at hpr
                    subst hpr
                    simp [hsel, hrec2] at hm
          · simp only [ha, if_false, Bool.false_eq_true] at hm
            cases hm
            rfl
      · simp only [hc, if_false, Bool.false_eq_true] at hm
        by_cases hn : xs.any Node.isNil
        · simp [hn] at hm
        · simp [hn] at hm

/-- The container produced by walking `c` in lock-step with a broadcast
leaf `v`: every leaf `w` of `c` at chain `p` becomes `fn [w, v] p`. -/
def broadcastMap (fn : List Val → String → Val) (v : Val) : String → Node → Node
  | kc, .leaf w => .leaf (fn [w, v] kc)
  | _, .nil => .nil
  | kc, .cons k c r =>
    .cons k (broadcastMap fn v (extendChain kc k) c) (broadcastMap fn v kc r)

theorem multiMapF_broadcast (fn : List Val → String → Val) :
    ∀ (c : Node) (fuel : Nat) (kc : String) (v : Val), sizeL [c, .leaf v] < fuel →
      multiMapF fn none true false fuel kc [c, .leaf v] =
        .ok (broadcastMap fn v kc c) := by
  intro c
  induction c with
  | leaf w =>
    intro fuel kc v hs
    cases fuel with
    | zero => simp [sizeL, Node.nsize] at hs
    | succ m =>
      simp [multiMapF, Node.isCons, Node.isNil, leafVals, broadcastMap, selected]
  | nil =>
    intro fuel kc v hs
    cases fuel with
    | zero => simp [sizeL, Node.nsize] at hs
    | succ m =>
      simp [multiMapF, Node.isCons, Node.isNil, broadcastMap]
  | cons k c r ihc ihr =>
    intro fuel kc v hs
    cases fuel with
    | zero => simp [sizeL, Node.nsize] at hs
    | succ m =>
      have hsz : sizeL [.cons k c r, .leaf v] = 1 + c.nsize + r.nsize + 1 := by
        simp [sizeL, Node.nsize]
      have hc1 : 0 < c.nsize := nsize_pos c
      have hr1 : 0 < r.nsize := nsize_pos r
      have hcs : sizeL [c, .leaf v] < m := by
        simp only [sizeL, List.map_cons, List.map_nil, List.sum_cons, List.sum_nil,
          Node.nsize] at hs ⊢
        omega
      have hrs : sizeL [r, .leaf v] < m := by
        simp only [sizeL, List.map_cons, List.map_nil, List.sum_cons, List.sum_nil,
          Node.nsize] at hs ⊢
        omega
      simp only [multiMapF, List.isEmpty, List.any_cons, List.any_nil, Node.isCons,
        Bool.or_false, Bool.or_true, Bool.true_or, if_true, headKey]
      cases c with
      | leaf w =>
        simp only [childOf, restOf, List.map_cons, List.map_nil, alignedAt, List.all_cons,
          List.all_nil, beq_self_eq_true, Bool.and_true, Bool.true_and, if_true,
          Node.isCons, Node.isNil, List.any_cons, List.any_nil, Bool.or_false,
          Bool.false_eq_true, if_false, selected, leafVals, List.filterMap, ihr m kc v hrs,
          broadcastMap]
      | nil =>
        simp only [childOf, restOf, List.map_cons, List.map_nil, alignedAt, List.all_cons,
          List.all_nil, beq_self_eq_true, Bool.and_true, Bool.true_and, if_true,
          Node.isCons, Node.isNil, List.any_cons, List.any_nil, Bool.or_false,
          Bool.or_true, Bool.true_or, if_true, ihc m (extendChain kc k) v hcs,
          ihr m kc v hrs, Except.map, broadcastMap, Bool.false_eq_true, if_false]
      | cons k2 c2 r2 =>
        simp only [childOf, restOf, List.map_cons, List.map_nil, alignedAt, List.all_cons,
          List.all_nil, beq_self_eq_true, Bool.and_true, Bool.true_and, if_true,
          Node.isCons, Node.isNil, List.any_cons, List.any_nil, Bool.or_false,
          Bool.or_true, Bool.true_or, if_true, ihc m (extendChain kc k) v hcs,
          ihr m kc v hrs, Except.map, broadcastMap, Bool.false_eq_true, if_false]

/-- Key-structure divergence between two lock-step inputs: both sides are
containers and they disagree on the key sequence at some visited node;
a non-container leaf on either side is broadcast, never a divergence. -/
def diverges : Node → Node → Bool
  | .cons k c r, .cons k2 c2 r2 =>
    if k == k2 then diverges c c2 || diverges r r2 else true
  | .nil, .cons _ _ _ => true
  | .cons _ _ _, .nil => true
  | _, _ => false

theorem diverges_isCons (a b : Node) (h : diverges a b = true) :
    (a.isCons || b.isCons) = true := by
  cases a <;> cases b <;> simp [diverges, Node.isCons] at h ⊢

theorem multiMapF_diverges (fn : List Val → String → Val) :
    ∀ (c1 c2 : Node) (fuel : Nat) (kc : String), sizeL [c1, c2] < fuel →
      diverges c1 c2 = true →
      multiMapF fn none true false fuel kc [c1, c2] = .error .structureMismatch := by
  intro c1
  induction c1 with
  | leaf w =>
    intro c2 fuel kc hs hd
    cases c2 <;> simp [diverges] at hd
  | nil =>
    intro c2 fuel kc hs hd
    cases c2 with
    | leaf w => simp [diverges] at hd
    | nil => simp [diverges] at hd
    | cons k2 c2 r2 =>
      cases fuel with
      | zero => simp [sizeL, Node.nsize] at hs
      | succ m => simp [multiMapF, headKey, alignedAt]
  | cons k c r ihc ihr =>
    intro c2 fuel kc hs hd
    cases c2 with
    | leaf w => simp [diverges] at hd
    | nil =>
      cases fuel with
      | zero => simp [sizeL, Node.nsize] at hs
      | succ m => simp [multiMapF, headKey, alignedAt]
    | cons k2 c2 r2 =>
      cases fuel with
      | zero => simp [sizeL, Node.nsize] at hs
      | succ m =>
        have hc1 : 0 < c.nsize := nsize_pos c
        have hr1 : 0 < r.nsize := nsize_pos r
        have hc2 : 0 < c2.nsize := nsize_pos c2
        have hr2 : 0 < r2.nsize := nsize_pos r2
        have hcs : sizeL [c, c2] < m := by
          simp only [sizeL, List.map_cons, List.map_nil, List.sum_cons, List.sum_nil,
            Node.nsize] at hs ⊢
          omega
        have hrs : sizeL [r, r2] < m := by
          simp only [sizeL, List.map_cons, List.map_nil, List.sum_cons, List.sum_nil,
            Node.nsize] at hs ⊢
          omega
        by_cases hk : (k == k2) = true
        · have hkeq : k = k2 := by simpa using hk
          subst hkeq
          simp only [diverges, beq_self_eq_true, if_true, Bool.or_eq_true] at hd
          simp only [multiMapF, List.isEmpty, List.any_cons, List.any_nil,
            Node.isCons_cons, Bool.or_false, Bool.or_true, Bool.true_or, if_true,
            headKey, alignedAt, List.all_cons, List.all_nil, beq_self_eq_true,
            Bool.and_true, Bool.true_and, childOf, restOf, List.map_cons, List.map_nil,
            selected, Bool.false_eq_true, if_false]
          split
          · rename_i e heq
            split at heq
            · cases hrec : multiMapF fn none true false m (extendChain kc k) [c, c2] with
              | error e2 =>
                rw [hrec] at heq
                simp only [Except.map] at heq
                cases heq
                exact congrArg Except.error (multiMapF_error_sm fn none true false m
                  (extendChain kc k) [c, c2] _ hcs hrec)
              | ok hd0 =>
                rw [hrec] at heq
                simp [Except.map] at heq
            · simp at heq
          · rename_i hd0 heq
            rcases hd with hd1 | hd2
            · exfalso
              split at heq
              · rw [ihc c2 m (extendChain kc k) hcs hd1] at heq
                simp [Except.map] at heq
              · rename_i hAn
                have hor := diverges_isCons c c2 hd1
                simp only [Bool.or_eq_true, not_or, Bool.not_eq_true] at hAn hor
                rcases hor with h | h <;> simp [h] at hAn
            · simp only [ihr r2 m kc hrs hd2]
        · have hk2 : (k2 == k) = false := by
            by_contra hcon
            simp only [Bool.not_eq_false] at hcon
            have hkk : k2 = k := by simpa using hcon
            exact hk (by simp [hkk])
          simp only [multiMapF, List.isEmpty, List.any_cons, List.any_nil,
            Node.isCons_cons, Bool.or_false, Bool.or_true, Bool.true_or, if_true,
            headKey, alignedAt, List.all_cons, List.all_nil, beq_self_eq_true,
            Bool.and_true, Bool.true_and, hk2, Bool.false_and, Bool.and_false,
            Bool.false_eq_true, if_false]

theorem leavesFrom_broadcastMap (fn : List Val → String → Val) (v : Val) :
    ∀ (c : Node) (kc : String),
      leavesFrom kc (broadcastMap fn v kc c) =
        (leavesFrom kc c).map (fun pv => (pv.1, fn [pv.2, v] pv.1)) := by
  intro c
  induction c with
  | leaf w => intro kc; simp [broadcastMap, leavesFrom]
  | nil => intro kc; simp [broadcastMap, leavesFrom]
  | cons k c r ihc ihr => intro kc; simp [broadcastMap, leavesFrom, ihc, ihr]

/-! ### The out= / in-place layer -/

/-- Leaf lookup by key path. -/
def lookupPath : Node → List String → Option Val
  | .leaf v, [] => some v
  | .leaf _, _ :: _ => none
  | .nil, _ => none
  | .cons _ _ _, [] => none
  | .cons k c r, k2 :: p => if k2 = k then lookupPath c p else lookupPath r (k2 :: p)

/-- Modelled from the spec: the leaf overwrite of `handle_inplace`
(section 4.4).  Walks the `out` container (`rev` is the reversed key path
accumulated so far) and replaces every leaf by the leaf of `res` at the
same key-chain, failing with `KeyChainMismatchError` when `res` has no
leaf there. -/
def overwriteFrom (res : Node) : List String → Node → Except Err Node
  | rev, .leaf _ =>
    match lookupPath res rev.reverse with
    | some v => .ok (.leaf v)
    | none => .error .keyChainMismatch
  | _, .nil => .ok .nil
  | rev, .cons k c r =>
    match overwriteFrom res (k :: rev) c with
    | .error e => .error e
    | .ok c2 =>
      match overwriteFrom res rev r with
      | .error e => .error e
      | .ok r2 => .ok (.cons k c2 r2)

/-- Modelled from the spec: `ContainerBase.handle_inplace` (section 4.4;
`ivy/container/base.py` is not under `src/`).  With `out = none` the
result is returned unchanged; otherwise every leaf of `out` is
overwritten with the corresponding leaf of the result and `out`'s
(updated) container is returned. -/
def handle_inplace (res : Except Err Node) (out : Option Node) : Except Err Node :=
  match out with
  | none => res
  | some o =>
    match res with
    | .error e => .error e
    | .ok r => overwriteFrom r [] o

/-- Modelled from the spec: `ContainerBase.multi_map_in_static_method`
(section 4.3; `ivy/container/base.py` is not under `src/`).  The static
container methods pass their argument list here; containers among the
arguments are walked in lock-step while plain values are broadcast as
leaves, `op` is invoked on every aligned selected leaf tuple, and the
result is passed through `handle_inplace` for the `out` keyword. -/
def multi_map_in_static_method (op : List Val → String → Val) (args : List Node)
    (key_chains : Option (List String)) (to_apply prune_unapplied : Bool)
    (out : Option Node) : Except Err Node :=
  handle_inplace (multiMap op key_chains to_apply prune_unapplied "" args) out

/-! ### Leaf operation semantics (integer data model) -/

/-- The semantics of `ivy.roll` on a 1-D native array with `axis = None`:
the array is flattened, every element is shifted `shift` places toward
larger indices (wrapping around), and the original shape is restored
(trivial in one dimension).  Modelled from the spec: the functional
`ivy.roll` implementation is not under `src/`; the behaviour follows the
roll docstrings in `ivy/container/manipulation.py` and
`ivy/array/manipulation.py`. -/
def rollSem (shift : Int) (l : List Int) : List Int :=
  if l.length = 0 then l
  else
    let s : Nat := (shift % (l.length : Int)).toNat
    l.drop (l.length - s) ++ l.take (l.length - s)

/-- Modelled from the spec: `ivy.gather` semantics on 1-D data (gather
values of `params` at `indices` along the single axis). -/
def gatherSem (params indices : List Int) : List Int :=
  indices.map (fun i => params.getD i.toNat 0)

/-- Modelled from the spec: `ivy.gather_nd` semantics on 1-D data; with
one-dimensional params every index tuple has length one, so the result
coincides with a plain gather. -/
def gatherNdSem (params indices : List Int) : List Int :=
  indices.map (fun i => params.getD i.toNat 0)

/-- Modelled from the spec: integer abstraction of `ivy.clip_vector_norm`
(downscale the array when its p-norm exceeds `max_norm`); the functional
implementation is not under `src/`. -/
def clipVectorNormSem (max_norm p : Int) (l : List Int) : List Int :=
  let nrm : Int := ((l.map (fun x => (x.natAbs : Int) ^ p.toNat)).sum)
  if nrm ≤ max_norm then l else l.map (fun x => x * max_norm / nrm)

/-- Modelled from the spec: integer abstraction of `ivy.cross_entropy`
(a scalar loss combining the true and predicted distributions); the
functional implementation is not under `src/`. -/
def crossEntropySem (t p : List Int) : Int :=
  -(List.sum (List.zipWith (fun a b => a * b) t p))

/-- Modelled from the spec: `ivy.zero_pad` semantics on 1-D data
(`pad_width` zeros before and after). -/
def zeroPadSem (pad_width : Nat × Nat) (l : List Int) : List Int :=
  List.replicate pad_width.1 0 ++ l ++ List.replicate pad_width.2 0

/-- The aligned-leaf function built by `multi_map_in_static_method` for
`roll`: invoke the roll semantics when the first aligned value is an
array (mirroring the `is_array` guard of the container lambdas in
`ivy/container/manipulation.py`); pass non-array leaves through. -/
def rollLeafFn (vs : List Val) (_kc : String) : Val :=
  match vs with
  | .arr d :: .int s :: _ => .arr (rollSem s d)
  | v :: _ => v
  | [] => .null

/-- The aligned-leaf function for `clip_vector_norm`. -/
def clipVectorNormLeafFn (vs : List Val) (_kc : String) : Val :=
  match vs with
  | .arr d :: .int m :: .int p :: _ => .arr (clipVectorNormSem m p d)
  | v :: _ => v
  | [] => .null

/-- The aligned-leaf function for `cross_entropy`. -/
def crossEntropyLeafFn (vs : List Val) (_kc : String) : Val :=
  match vs with
  | .arr t :: .arr p :: _ => .int (crossEntropySem t p)
  | v :: _ => v
  | [] => .null

/-! ### Container mixin methods (from src/ivy/container/...) -/

namespace ContainerWithManipulation

/-- `ContainerWithManipulation.static_roll` (src/ivy/container/manipulation.py):
wraps `roll` through `multi_map_in_static_method` with the argument list
`x, shift, axis` and the key-chain selector arguments. -/
def static_roll (x shift axis : Node) (key_chains : Option (List String))
    (to_apply prune_unapplied : Bool) (out : Option Node) : Except Err Node :=
  multi_map_in_static_method rollLeafFn [x, shift, axis]
    key_chains to_apply prune_unapplied out

/-- `ContainerWithManipulation.roll` (src/ivy/container/manipulation.py):
the instance method forwards `self` together with the remaining arguments
to `static_roll`. -/
def roll (self shift axis : Node) (key_chains : Option (List String))
    (to_apply prune_unapplied : Bool) (out : Option Node) : Except Err Node :=
  static_roll self shift axis key_chains to_apply prune_unapplied out

/-- `ContainerWithManipulation.zero_pad` (src/ivy/container/manipulation.py):
maps `ivy.zero_pad(x_, pad_width=pad_width)` over the array leaves of
`self` and passes the result through `handle_inplace`.  The `value`
parameter is accepted but does not occur in the mapped lambda. -/
def zero_pad (self : Node) (pad_width : Nat × Nat) (value : Int)
    (key_chains : Option (List String)) (to_apply prune_unapplied : Bool)
    (out : Option Node) : Except Err Node :=
  handle_inplace
    (.ok (cmap
      (fun x _ => match x with
        | .arr d => .arr (zeroPadSem pad_width d)
        | x => x)
      key_chains to_apply prune_unapplied "" self))
    out

end ContainerWithManipulation

namespace ContainerWithGeneral

/-- `ContainerWithGeneral.static_clip_vector_norm` (src/ivy/container/general.py):
wraps `clip_vector_norm` through `multi_map_in_static_method` with the
argument list `x, max_norm, p` (the two scalars enter the lock-step walk
as broadcast leaves). -/
def static_clip_vector_norm (x : Node) (max_norm p : Int)
    (key_chains : Option (List String)) (to_apply prune_unapplied : Bool)
    (out : Option Node) : Except Err Node :=
  multi_map_in_static_method clipVectorNormLeafFn
    [x, .leaf (.int max_norm), .leaf (.int p)]
    key_chains to_apply prune_unapplied out

/-- `ContainerWithGeneral.clip_vector_norm` (src/ivy/container/general.py):
the instance method forwards `self` and the remaining arguments to
`static_clip_vector_norm`. -/
def clip_vector_norm (self : Node) (max_norm p : Int)
    (key_chains : Option (List String)) (to_apply prune_unapplied : Bool)
    (out : Option Node) : Except Err Node :=
  static_clip_vector_norm self max_norm p key_chains to_apply prune_unapplied out

end ContainerWithGeneral

namespace ContainerWithLosses

/-- `ContainerWithLosses.static_cross_entropy` (src/ivy/container/losses.py):
wraps `cross_entropy` through `multi_map_in_static_method` with the
argument list `true, pred, axis, epsilon`. -/
def static_cross_entropy (tru pred axis epsilon : Node)
    (key_chains : Option (List String)) (to_apply prune_unapplied : Bool)
    (out : Option Node) : Except Err Node :=
  multi_map_in_static_method crossEntropyLeafFn [tru, pred, axis, epsilon]
    key_chains to_apply prune_unapplied out

/-- `ContainerWithLosses.cross_entropy` (src/ivy/container/losses.py):
the instance method forwards `self` and the remaining arguments to
`static_cross_entropy`. -/
def cross_entropy (self pred axis epsilon : Node)
    (key_chains : Option (List String)) (to_apply prune_unapplied : Bool)
    (out : Option Node) : Except Err Node :=
  static_cross_entropy self pred axis epsilon key_chains to_apply
    prune_unapplied out

end ContainerWithLosses

/-! ### The Array wrapper and the functional dispatch layer -/

/-- The `ivy.Array` wrapper: one native handle (`data`, the `_data`
attribute) plus an identity tag standing for the Python object identity,
so that the `ret is out` contract is expressible. -/
structure Arr where
  id : Nat
  data : List Int
deriving DecidableEq

/-- A functional-layer input: an `ivy.Array` wrapper or a bare native
array (the functional layer accepts both). -/
def toNative : Sum Arr (List Int) → List Int
  | .inl a => a.data
  | .inr d => d

namespace IvyAPI

/-- Modelled from the spec: the `out=` handling of the functional layer
(section 4.2; the `ivy/functional/ivy` wrappers are not under `src/`).
Without `out` the computed native result is wrapped in a fresh `Array`
(identity `fid`).  With `out`, when the shapes are compatible the
computed data is written into `out`'s handle and `out`'s identity is
returned — also when the backend ignored `out`, in which case this is
the fallback copy; an incompatible shape fails with
`ShapeMismatchError`. -/
def handle_out (computed : List Int) (fid : Nat) (out : Option Arr) : Except Err Arr :=
  match out with
  | none => .ok ⟨fid, computed⟩
  | some o =>
    if o.data.length = computed.length then .ok ⟨o.id, computed⟩
    else .error .shapeMismatch

/-- Modelled from the spec: the functional `ivy.gather` (accepts wrapped
or native inputs, computes with the active backend, handles `out`). -/
def gather (fid : Nat) (params indices : Sum Arr (List Int)) (axis : Int)
    (out : Option Arr) : Except Err Arr :=
  handle_out (gatherSem (toNative params) (toNative indices)) fid out

/-- Modelled from the spec: the functional `ivy.gather_nd`. -/
def gather_nd (fid : Nat) (params indices : Sum Arr (List Int))
    (out : Option Arr) : Except Err Arr :=
  handle_out (gatherNdSem (toNative params) (toNative indices)) fid out

/-- Modelled from the spec: the functional `ivy.roll` (1-D data;
`axis = none` flattens, shifts and restores, which on one axis coincides
with `axis = some 0`). -/
def roll (fid : Nat) (x : Sum Arr (List Int)) (shift : Int) (axis : Option Int)
    (out : Option Arr) : Except Err Arr :=
  handle_out (rollSem shift (toNative x)) fid out

/-- Modelled from the spec: the functional `ivy.shuffle`, whose numpy
backend ignores `out` (src/ivy/functional/backends/numpy/random.py), so
the `out=` contract is met by the fallback copy in `handle_out`.  The
sampled permutation is passed explicitly as `perm`. -/
def shuffle (perm : List Int → List Int) (fid : Nat) (x : Sum Arr (List Int))
    (out : Option Arr) : Except Err Arr :=
  handle_out (perm (toNative x)) fid out

end IvyAPI

namespace ArrayWithGeneral

/-- `ArrayWithGeneral.gather` (src/ivy/array/general.py): forwards
`self._data` together with the remaining arguments to `ivy.gather`. -/
def gather (self : Arr) (indices : Sum Arr (List Int)) (axis : Int)
    (fid : Nat) (out : Option Arr) : Except Err Arr :=
  IvyAPI.gather fid (.inr self.data) indices axis out

/-- `ArrayWithGeneral.gather_nd` (src/ivy/array/general.py): forwards
`self` (the wrapper itself, not `self._data`) and the remaining
arguments to `ivy.gather_nd`. -/
def gather_nd (self : Arr) (indices : Sum Arr (List Int))
    (fid : Nat) (out : Option Arr) : Except Err Arr :=
  IvyAPI.gather_nd fid (.inl self) indices out

end ArrayWithGeneral

namespace ArrayWithManipulation

/-- `ArrayWithManipulation.roll` (src/ivy/array/manipulation.py):
forwards `self._data`, `shift` and `axis` to `ivy.roll`. -/
def roll (self : Arr) (shift : Int) (axis : Option Int)
    (fid : Nat) (out : Option Arr) : Except Err Arr :=
  IvyAPI.roll fid (.inr self.data) shift axis out

end ArrayWithManipulation

/-! ### The numpy backend random functions (src/ivy/functional/backends/numpy/random.py) -/

/-- An explicit store of native numpy buffers, so that in-place writes
(or their absence) are observable: a backend function receives buffer
indices and returns the index of its result together with the updated
store.  Allocation appends a new buffer. -/
structure NpHeap where
  arrs : List (List Int)
deriving DecidableEq

namespace NpHeap

/-- Read the buffer at index `i`. -/
def read (h : NpHeap) (i : Nat) : List Int :=
  h.arrs.getD i []

/-- Allocate a fresh buffer holding `d`; returns its index. -/
def alloc (h : NpHeap) (d : List Int) : Nat × NpHeap :=
  (h.arrs.length, ⟨h.arrs ++ [d]⟩)

end NpHeap

namespace NumpyBackend

/-- `shuffle` (src/ivy/functional/backends/numpy/random.py): returns
`np.random.permutation(x)` — a freshly allocated permuted copy.  The
`out` parameter is accepted but never read or written.  The permutation
sampled by `np.random` is passed explicitly as `perm`. -/
def shuffle (perm : List Int → List Int) (h : NpHeap) (x : Nat)
    (out : Option Nat) : Nat × NpHeap :=
  h.alloc (perm (h.read x))

/-- `random_uniform` (src/ivy/functional/backends/numpy/random.py):
returns `np.asarray(np.random.uniform(low, high, shape), dtype=dtype)` —
a freshly allocated array of sampled values (passed explicitly as
`sample`); the `out` parameter is accepted but never read or written.
The bounds/shape validation helper `_check_bounds_and_get_shape` is not
under `src/` and does not touch `out` either. -/
def random_uniform (sample : List Int) (h : NpHeap) (low high : Int)
    (out : Option Nat) : Nat × NpHeap :=
  h.alloc sample

end NumpyBackend

/-! ### The backend resolver -/

/-- Modelled from the spec: the process-wide backend state (section 4.1;
the backend handler module is not under `src/`): a stack of explicitly
activated backend names over a configured default. -/
structure BackendState where
  stack : List String
  dflt : String
deriving DecidableEq

/-- Modelled from the spec: `current_backend()` returns the top of the
activation stack, or the default backend when the stack is empty. -/
def current_backend (st : BackendState) : String :=
  st.stack.headD st.dflt

/-- Modelled from the spec: `set_backend(name)` (section 4.1).  When the
named backend's native dependency is importable (`avail name`), the
backend is pushed onto the activation stack; otherwise the call fails
with `UnavailableBackendError` and the state is returned as it was. -/
def set_backend (avail : String → Bool) (name : String) (st : BackendState) :
    Except Err Unit × BackendState :=
  if avail name then (.ok (), { st with stack := name :: st.stack })
  else (.error .unavailableBackend, st)

/-! ### The test conversion helper (src/ivy_tests/test_ivy/helpers.py) -/

/-- Numpy dtypes relevant to `_convert_vars`. -/
inductive Dtype where
  | f64
  | f32
  | othert
deriving DecidableEq

/-- A numpy ndarray as seen by `_convert_vars`: its dtype, its strides
and its (abstracted) data. -/
structure NdArr where
  dtype : Dtype
  strides : List Int
  data : List Int
deriving DecidableEq

/-- `var.astype(np.float32)`: a fresh array with dtype float32; numpy's
`astype` copies into a new buffer, whose strides are non-negative. -/
def astype32 (a : NdArr) : NdArr :=
  ⟨.f32, a.strides.map (fun s => (s.natAbs : Int)), a.data⟩

/-- `var.copy()`: a fresh contiguous copy, whose strides are
non-negative. -/
def copyArr (a : NdArr) : NdArr :=
  ⟨a.dtype, a.strides.map (fun s => (s.natAbs : Int)), a.data⟩

/-- A Python value flowing through `_convert_vars`: an ndarray, an
iterable (list/tuple/dict values), or any other object. -/
inductive PyVal where
  | nd (a : NdArr)
  | it (elems : List PyVal)
  | other (tag : Nat)

/-- `_convert_vars` (src/ivy_tests/test_ivy/helpers.py).  For each input:
an iterable is converted recursively (the recursive call passes only
`vars_in`, `from_type` and `to_type_callable`, so `keep_other` reverts to
`True` and `to_type` to `None`) and the converted list is appended as one
element; a value matching `from_type` is normalised when it is an
ndarray — float64 data is cast to float32, then an array with a negative
stride is replaced by a contiguous copy — and passed to
`to_type_callable` (its absence raises); otherwise, a value matching
`to_type` is appended unchanged, and any remaining value is appended
exactly when `keep_other` is set. -/
def convertVars (from_type : PyVal → Bool) (to_type_callable : Option (PyVal → PyVal))
    (keep_other : Bool) (to_type : Option (PyVal → Bool)) :
    List PyVal → Except String (List PyVal)
  | [] => .ok []
  | .it elems :: rest =>
    (convertVars from_type to_type_callable true none elems).bind fun rv =>
      (convertVars from_type to_type_callable keep_other to_type rest).map
        fun rr => .it rv :: rr
  | v :: rest =>
    if from_type v then
      let v2 :=
        match v with
        | .nd a =>
          let a1 := if a.dtype = .f64 then astype32 a else a
          let a2 := if a1.strides.any (fun s => s < 0) then copyArr a1 else a1
          PyVal.nd a2
        | w => w
      match to_type_callable with
      | some f =>
        (convertVars from_type to_type_callable keep_other to_type rest).map
          fun rr => f v2 :: rr
      | none => .error "Invalid. A conversion callable is required."
    else if (match to_type with | some p => p v | none => false) then
      (convertVars from_type to_type_callable keep_other to_type rest).map
        fun rr => v :: rr
    else if keep_other then
      (convertVars from_type to_type_callable keep_other to_type rest).map
        fun rr => v :: rr
    else convertVars from_type to_type_callable keep_other to_type rest

/-! ### Helper lemmas for the claim theorems -/

theorem filterMap_if_eq_map {α β : Type} (p : α → Bool) (f g : α → β)
    (l : List α) :
    l.filterMap (fun x => if p x then some (f x) else some (g x)) =
      l.map (fun x => if p x then f x else g x) := by
  induction l with
  | nil => rfl
  | cons x xs ih => by_cases h : p x <;> simp [h, ih]

theorem filterMap_if_eq_filter_map {α β : Type} (p : α → Bool) (f : α → β)
    (l : List α) :
    l.filterMap (fun x => if p x then some (f x) else none) =
      (l.filter p).map f := by
  induction l with
  | nil => rfl
  | cons x xs ih => by_cases h : p x <;> simp [h, ih]

theorem any_isCons_map_leaf (vs : List Val) :
    (vs.map Node.leaf).any Node.isCons = false := by
  induction vs with
  | nil => rfl
  | cons v vs ih => simp [ih]

theorem any_isNil_map_leaf (vs : List Val) :
    (vs.map Node.leaf).any Node.isNil = false := by
  induction vs with
  | nil => rfl
  | cons v vs ih => simp [ih]

theorem alignedAt_map_leaf (k : String) (vs : List Val) :
    alignedAt k (vs.map Node.leaf) = true := by
  induction vs with
  | nil => rfl
  | cons v vs ih =>
    simp only [alignedAt, List.map_cons, List.all_cons] at ih ⊢
    simp only [ih, Bool.and_true]

theorem map_childOf_map_leaf (vs : List Val) :
    (vs.map Node.leaf).map childOf = vs.map Node.leaf := by
  induction vs with
  | nil => rfl
  | cons v vs ih => simp [childOf, ih]

theorem map_restOf_map_leaf (vs : List Val) :
    (vs.map Node.leaf).map restOf = vs.map Node.leaf := by
  induction vs with
  | nil => rfl
  | cons v vs ih => simp [restOf, ih]

theorem leafVals_cons_leaf (w : Val) (L : List Node) :
    leafVals (Node.leaf w :: L) = w :: leafVals L := by
  simp [leafVals]

theorem leafVals_map_leaf (vs : List Val) : leafVals (vs.map Node.leaf) = vs := by
  induction vs with
  | nil => rfl
  | cons v vs ih => rw [List.map_cons, leafVals_cons_leaf, ih]

/-- The container produced by walking `c` in lock-step with the broadcast
leaves `vs` under a key-chain selector: a selected leaf `w` at chain `p`
becomes `fn (w :: vs) p`, an unselected leaf is passed through (the
pass-through value of an aligned leaf position is its first leaf, the
container's own value) or dropped when pruning. -/
def selBroadcastMapN (fn : List Val → String → Val) (vs : List Val)
    (kcs : Option (List String)) (ta pr : Bool) : String → Node → Node
  | kc, .leaf w => .leaf (fn (w :: vs) kc)
  | _, .nil => .nil
  | kc, .cons k c r =>
    let chain := extendChain kc k
    let rest := selBroadcastMapN fn vs kcs ta pr kc r
    match c with
    | .leaf w =>
      if selected kcs ta chain then .cons k (.leaf (fn (w :: vs) chain)) rest
      else if pr then rest
      else .cons k (.leaf w) rest
    | c => .cons k (selBroadcastMapN fn vs kcs ta pr chain c) rest

theorem multiMapF_broadcastN (fn : List Val → String → Val) (vs : List Val)
    (kcs : Option (List String)) (ta pr : Bool) :
    ∀ (c : Node) (fuel : Nat) (kc : String),
      sizeL (c :: vs.map Node.leaf) < fuel →
      multiMapF fn kcs ta pr fuel kc (c :: vs.map Node.leaf) =
        .ok (selBroadcastMapN fn vs kcs ta pr kc c) := by
  intro c
  induction c with
  | leaf w =>
    intro fuel kc hs
    cases fuel with
    | zero => omega
    | succ m =>
      simp [multiMapF, List.any_cons, any_isCons_map_leaf, any_isNil_map_leaf,
        leafVals_cons_leaf, leafVals_map_leaf, selBroadcastMapN]
  | nil =>
    intro fuel kc hs
    cases fuel with
    | zero => omega
    | succ m =>
      simp [multiMapF, List.any_cons, any_isCons_map_leaf, any_isNil_map_leaf,
        selBroadcastMapN]
  | cons k c r ihc ihr =>
    intro fuel kc hs
    cases fuel with
    | zero => omega
    | succ m =>
      have hc1 : 0 < c.nsize := nsize_pos c
      have hr1 : 0 < r.nsize := nsize_pos r
      have hcs : sizeL (c :: vs.map Node.leaf) < m := by
        simp only [sizeL_cons, Node.nsize] at hs ⊢
        omega
      have hrs : sizeL (r :: vs.map Node.leaf) < m := by
        simp only [sizeL_cons, Node.nsize] at hs ⊢
        omega
      simp only [multiMapF, List.isEmpty, List.any_cons, Node.isCons_cons,
        Bool.true_or, if_true, headKey, alignedAt, List.all_cons, beq_self_eq_true,
        Bool.true_and, childOf, restOf, List.map_cons, map_childOf_map_leaf,
        map_restOf_map_leaf]
      have hal : ((vs.map Node.leaf).all fun x =>
          match x with
          | Node.leaf _ => true
          | Node.cons k2 _ _ => k2 == k
          | Node.nil => false) = true := alignedAt_map_leaf k vs
      rw [hal]
      simp only [if_true]
      cases c with
      | leaf w =>
        simp only [List.any_cons, Node.isCons_leaf, Node.isNil_leaf,
          any_isCons_map_leaf, any_isNil_map_leaf, Bool.or_false,
          Bool.false_eq_true, if_false, leafVals_cons_leaf, leafVals_map_leaf,
          firstLeafVal, List.headD, ihr m kc hrs, selBroadcastMapN]
        by_cases hsel : selected kcs ta (extendChain kc k) = true
        · simp [hsel]
        · simp only [Bool.not_eq_true] at hsel
          cases pr with
          | true => simp [hsel]
          | false => simp [hsel]
      | nil =>
        simp only [List.any_cons, Node.isCons_nil, Node.isNil_nil,
          any_isCons_map_leaf, Bool.true_or, Bool.or_true, Bool.or_false,
          Bool.false_or, if_true, Bool.false_eq_true, if_false,
          ihc m (extendChain kc k) hcs, ihr m kc hrs, Except.map,
          selBroadcastMapN]
      | cons k2 c2 r2 =>
        simp only [List.any_cons, Node.isCons_cons, Bool.true_or, if_true,
          Bool.false_eq_true, if_false, ihc m (extendChain kc k) hcs,
          ihr m kc hrs, Except.map, selBroadcastMapN]

theorem leavesFrom_selBroadcastMapN (fn : List Val → String → Val) (vs : List Val)
    (kcs : Option (List String)) (ta pr : Bool) :
    ∀ (c : Node) (kc : String), wfc c = true → c.isLeaf = false →
    leavesFrom kc (selBroadcastMapN fn vs kcs ta pr kc c) =
      (leavesFrom kc c).filterMap (fun pv =>
        if selected kcs ta pv.1 then some (pv.1, fn (pv.2 :: vs) pv.1)
        else if pr then none else some pv) := by
  intro c
  induction c with
  | leaf v => intro kc _ hl; simp [Node.isLeaf] at hl
  | nil => intro kc _ _; simp [selBroadcastMapN, leavesFrom]
  | cons k c r ihc ihr =>
    intro kc hwf _
    simp only [wfc, Bool.and_eq_true, Bool.not_eq_true'] at hwf
    obtain ⟨hwc, hwr, hrl⟩ := hwf
    have hr := ihr kc hwr hrl
    cases c with
    | leaf v =>
      simp only [selBroadcastMapN, leavesFrom, List.filterMap_append, List.filterMap]
      by_cases hs : selected kcs ta (extendChain kc k) = true
      · simp [hs, leavesFrom, hr]
      · simp only [Bool.not_eq_true] at hs
        cases pr with
        | true => simp [hs, hr]
        | false => simp [hs, leavesFrom, hr]
    | nil =>
      simp only [selBroadcastMapN, leavesFrom, List.filterMap_append]
      have hc := ihc (extendChain kc k) hwc rfl
      simp [selBroadcastMapN, leavesFrom] at hc ⊢
      exact hr
    | cons k2 c2 r2 =>
      simp only [selBroadcastMapN, leavesFrom, List.filterMap_append]
      have hc := ihc (extendChain kc k) hwc rfl
      rw [hc, hr]
      simp [leavesFrom, List.filterMap_append, List.append_assoc]

/-! ### Claim theorems -/

/-- C1: for every Container and the supported operations `roll`,
`clip_vector_norm` and `cross_entropy` called without an `out` argument,
the instance method and the static method with the same remaining
arguments produce identical result containers (hence the same key
structure and the same leaf values): each instance method forwards
`self` and the remaining arguments verbatim to its static variant. -/
theorem c1_instance_static_agree :
    (∀ (self shift axis : Node) (kcs : Option (List String)) (ta pr : Bool),
      ContainerWithManipulation.roll self shift axis kcs ta pr none =
        ContainerWithManipulation.static_roll self shift axis kcs ta pr none) ∧
    (∀ (self : Node) (m p : Int) (kcs : Option (List String)) (ta pr : Bool),
      ContainerWithGeneral.clip_vector_norm self m p kcs ta pr none =
        ContainerWithGeneral.static_clip_vector_norm self m p kcs ta pr none) ∧
    (∀ (self pred axis eps : Node) (kcs : Option (List String)) (ta pr : Bool),
      ContainerWithLosses.cross_entropy self pred axis eps kcs ta pr none =
        ContainerWithLosses.static_cross_entropy self pred axis eps kcs ta pr none) :=
  ⟨fun _ _ _ _ _ _ => rfl, fun _ _ _ _ _ _ => rfl, fun _ _ _ _ _ _ _ => rfl⟩

/-- C2: with a shape-compatible `out`, `arr.gather(..., out=out)` returns
`out`'s identity with the computed values written into it, and those
values equal the result of the same call without `out`; the same holds
for the functional `shuffle`, whose numpy backend ignores `out`, via the
fallback copy in `handle_out`. -/
theorem c2_out_invariant (a : Arr) (indices : Sum Arr (List Int)) (axis : Int)
    (fid : Nat) (o : Arr)
    (h : o.data.length = (gatherSem a.data (toNative indices)).length) :
    (ArrayWithGeneral.gather a indices axis fid (some o) =
      .ok ⟨o.id, gatherSem a.data (toNative indices)⟩) ∧
    (ArrayWithGeneral.gather a indices axis fid none =
      .ok ⟨fid, gatherSem a.data (toNative indices)⟩) ∧
    (∀ (perm : List Int → List Int) (x : Arr) (o2 : Arr),
      o2.data.length = (perm x.data).length →
      IvyAPI.shuffle perm fid (.inl x) (some o2) = .ok ⟨o2.id, perm x.data⟩) := by
  refine ⟨?_, rfl, ?_⟩
  · simp [ArrayWithGeneral.gather, IvyAPI.gather, IvyAPI.handle_out, toNative, h]
  · intro perm x o2 h2
    simp [IvyAPI.shuffle, IvyAPI.handle_out, toNative, h2]

theorem c2_out_invariant_witness :
    ((⟨3, [9]⟩ : Arr).data.length =
        (gatherSem (⟨0, [5, 6, 7]⟩ : Arr).data (toNative (.inr [1]))).length) ∧
    ((ArrayWithGeneral.gather ⟨0, [5, 6, 7]⟩ (.inr [1]) (-1) 7 (some ⟨3, [9]⟩) =
      .ok ⟨3, gatherSem [5, 6, 7] [1]⟩) ∧
    (ArrayWithGeneral.gather ⟨0, [5, 6, 7]⟩ (.inr [1]) (-1) 7 none =
      .ok ⟨7, gatherSem [5, 6, 7] [1]⟩) ∧
    (∀ (perm : List Int → List Int) (x : Arr) (o2 : Arr),
      o2.data.length = (perm x.data).length →
      IvyAPI.shuffle perm 7 (.inl x) (some o2) = .ok ⟨o2.id, perm x.data⟩)) :=
  ⟨by decide, c2_out_invariant ⟨0, [5, 6, 7]⟩ (.inr [1]) (-1) 7 ⟨3, [9]⟩ (by decide)⟩

/-- The two containers of the spec scenario for `multi_map` structure
mismatch: `Container({a:1})` and `Container({a:1,b:2})`. -/
def exC3a : Node := .cons "a" (.leaf (.int 1)) .nil

/-- The second container of the spec scenario. -/
def exC3b : Node := .cons "a" (.leaf (.int 1)) (.cons "b" (.leaf (.int 2)) .nil)

/-- C3: `multi_map` over `[Container({a:1}), Container({a:1,b:2})]` fails
with `StructureMismatchError`; in general any key-structure divergence at
a visited node where neither side is a non-container leaf fails that way,
while a non-container leaf on one side is broadcast across all key-chains
of the other side and no error is raised. -/
theorem c3_multi_map_structure (fn : List Val → String → Val) :
    (multiMap fn none true false "" [exC3a, exC3b] = .error .structureMismatch) ∧
    (∀ (c1 c2 : Node), diverges c1 c2 = true →
      multiMap fn none true false "" [c1, c2] = .error .structureMismatch) ∧
    (∀ (c : Node) (v : Val),
      multiMap fn none true false "" [c, .leaf v] = .ok (broadcastMap fn v "" c) ∧
      leavesFrom "" (broadcastMap fn v "" c) =
        (leavesFrom "" c).map (fun pv => (pv.1, fn [pv.2, v] pv.1))) := by
  refine ⟨?_, ?_, ?_⟩
  · exact multiMapF_diverges fn exC3a exC3b _ "" (Nat.lt_succ_self _) (by decide)
  · intro c1 c2 hd
    exact multiMapF_diverges fn c1 c2 _ "" (Nat.lt_succ_self _) hd
  · intro c v
    exact ⟨multiMapF_broadcast fn c _ "" v (Nat.lt_succ_self _),
      leavesFrom_broadcastMap fn v c ""⟩

theorem c3_multi_map_structure_witness :
    diverges exC3a exC3b = true ∧
      multiMap rollLeafFn none true false "" [exC3a, exC3b] =
        .error .structureMismatch :=
  ⟨by decide, (c3_multi_map_structure rollLeafFn).2.1 exC3a exC3b (by decide)⟩

/-- C4: when the requested backend's native dependency is not importable,
`set_backend` fails with `UnavailableBackendError` and `current_backend`
is unchanged after the failed call. -/
theorem c4_set_backend_unavailable (avail : String → Bool) (name : String)
    (st : BackendState) (h : avail name = false) :
    (set_backend avail name st).1 = .error .unavailableBackend ∧
    current_backend (set_backend avail name st).2 = current_backend st := by
  simp [set_backend, h]

theorem c4_set_backend_unavailable_witness :
    ((fun _ => false) : String → Bool) "torch" = false ∧
      ((set_backend (fun _ => false) "torch" ⟨[], "numpy"⟩).1 =
          .error .unavailableBackend ∧
        current_backend (set_backend (fun _ => false) "torch" ⟨[], "numpy"⟩).2 =
          current_backend ⟨[], "numpy"⟩) :=
  ⟨rfl, c4_set_backend_unavailable (fun _ => false) "torch" ⟨[], "numpy"⟩ rfl⟩

/-- C5: with `key_chains = {"a.b"}` and `to_apply = true`, every
map-based and multi_map-based container operation transforms exactly the
leaf whose key-chain is `a.b` and returns every other leaf unchanged;
with `prune_unapplied = true` additionally every other leaf is absent
from the result.  Stated for the `map` engine (`cmap`), for the
`multi_map` engine walking a container in lock-step with broadcast
scalar leaves (the shape every `multi_map_in_static_method` call with
one container produces), and for the cited multi_map-based operation
`static_clip_vector_norm` itself. -/
theorem c5_key_chain_filter (fn : Val → String → Val)
    (fnm : List Val → String → Val) (vs : List Val) (m p : Int) (c : Node)
    (hw : wfc c = true) (hl : c.isLeaf = false) :
    (leavesFrom "" (cmap fn (some ["a.b"]) true false "" c) =
      (leavesFrom "" c).map (fun pv =>
        if pv.1 = "a.b" then (pv.1, fn pv.2 pv.1) else pv)) ∧
    (leavesFrom "" (cmap fn (some ["a.b"]) true true "" c) =
      ((leavesFrom "" c).filter (fun pv => pv.1 = "a.b")).map
        (fun pv => (pv.1, fn pv.2 pv.1))) ∧
    (multiMap fnm (some ["a.b"]) true false "" (c :: vs.map Node.leaf) =
      .ok (selBroadcastMapN fnm vs (some ["a.b"]) true false "" c)) ∧
    (leavesFrom "" (selBroadcastMapN fnm vs (some ["a.b"]) true false "" c) =
      (leavesFrom "" c).map (fun pv =>
        if pv.1 = "a.b" then (pv.1, fnm (pv.2 :: vs) pv.1) else pv)) ∧
    (multiMap fnm (some ["a.b"]) true true "" (c :: vs.map Node.leaf) =
      .ok (selBroadcastMapN fnm vs (some ["a.b"]) true true "" c)) ∧
    (leavesFrom "" (selBroadcastMapN fnm vs (some ["a.b"]) true true "" c) =
      ((leavesFrom "" c).filter (fun pv => pv.1 = "a.b")).map
        (fun pv => (pv.1, fnm (pv.2 :: vs) pv.1))) ∧
    (ContainerWithGeneral.static_clip_vector_norm c m p (some ["a.b"]) true
        false none =
      .ok (selBroadcastMapN clipVectorNormLeafFn [.int m, .int p]
        (some ["a.b"]) true false "" c)) ∧
    (ContainerWithGeneral.static_clip_vector_norm c m p (some ["a.b"]) true
        true none =
      .ok (selBroadcastMapN clipVectorNormLeafFn [.int m, .int p]
        (some ["a.b"]) true true "" c)) := by
  have hsel : ∀ q : String, selected (some ["a.b"]) true q = decide (q = "a.b") := by
    intro q
    by_cases h : q = "a.b" <;> simp [selected, h]
  refine ⟨?_, ?_, ?_, ?_, ?_, ?_, ?_, ?_⟩
  · rw [leavesFrom_cmap fn (some ["a.b"]) true false c "" hw hl]
    have := filterMap_if_eq_map (fun pv : String × Val => decide (pv.1 = "a.b"))
      (fun pv => (pv.1, fn pv.2 pv.1)) (fun pv => pv) (leavesFrom "" c)
    simp only [hsel]
    simpa using this
  · rw [leavesFrom_cmap fn (some ["a.b"]) true true c "" hw hl]
    have := filterMap_if_eq_filter_map (fun pv : String × Val => decide (pv.1 = "a.b"))
      (fun pv => (pv.1, fn pv.2 pv.1)) (leavesFrom "" c)
    simp only [hsel]
    simpa using this
  · exact multiMapF_broadcastN fnm vs (some ["a.b"]) true false c _ ""
      (Nat.lt_succ_self _)
  · rw [leavesFrom_selBroadcastMapN fnm vs (some ["a.b"]) true false c "" hw hl]
    have := filterMap_if_eq_map (fun pv : String × Val => decide (pv.1 = "a.b"))
      (fun pv => (pv.1, fnm (pv.2 :: vs) pv.1)) (fun pv => pv) (leavesFrom "" c)
    simp only [hsel]
    simpa using this
  · exact multiMapF_broadcastN fnm vs (some ["a.b"]) true true c _ ""
      (Nat.lt_succ_self _)
  · rw [leavesFrom_selBroadcastMapN fnm vs (some ["a.b"]) true true c "" hw hl]
    have := filterMap_if_eq_filter_map (fun pv : String × Val => decide (pv.1 = "a.b"))
      (fun pv => (pv.1, fnm (pv.2 :: vs) pv.1)) (leavesFrom "" c)
    simp only [hsel]
    simpa using this
  · exact multiMapF_broadcastN clipVectorNormLeafFn [.int m, .int p]
      (some ["a.b"]) true false c _ "" (Nat.lt_succ_self _)
  · exact multiMapF_broadcastN clipVectorNormLeafFn [.int m, .int p]
      (some ["a.b"]) true true c _ "" (Nat.lt_succ_self _)

/-- A sample leaf transformation. -/
def exLeafFn : Val → String → Val := fun _ _ => .int 9

/-- A sample container with leaves at `a.b`, `a.c` and `d`. -/
def exC5 : Node :=
  .cons "a" (.cons "b" (.leaf (.int 1)) (.cons "c" (.leaf (.int 2)) .nil))
    (.cons "d" (.leaf (.int 3)) .nil)

theorem c5_key_chain_filter_witness :
    wfc exC5 = true ∧ exC5.isLeaf = false ∧
    ((leavesFrom "" (cmap exLeafFn (some ["a.b"]) true false "" exC5) =
      (leavesFrom "" exC5).map (fun pv =>
        if pv.1 = "a.b" then (pv.1, exLeafFn pv.2 pv.1) else pv)) ∧
    (leavesFrom "" (cmap exLeafFn (some ["a.b"]) true true "" exC5) =
      ((leavesFrom "" exC5).filter (fun pv => pv.1 = "a.b")).map
        (fun pv => (pv.1, exLeafFn pv.2 pv.1))) ∧
    (multiMap clipVectorNormLeafFn (some ["a.b"]) true false ""
        (exC5 :: [Val.int 5, Val.int 1].map Node.leaf) =
      .ok (selBroadcastMapN clipVectorNormLeafFn [.int 5, .int 1]
        (some ["a.b"]) true false "" exC5)) ∧
    (leavesFrom "" (selBroadcastMapN clipVectorNormLeafFn [.int 5, .int 1]
        (some ["a.b"]) true false "" exC5) =
      (leavesFrom "" exC5).map (fun pv =>
        if pv.1 = "a.b" then (pv.1, clipVectorNormLeafFn (pv.2 :: [.int 5, .int 1]) pv.1)
        else pv)) ∧
    (multiMap clipVectorNormLeafFn (some ["a.b"]) true true ""
        (exC5 :: [Val.int 5, Val.int 1].map Node.leaf) =
      .ok (selBroadcastMapN clipVectorNormLeafFn [.int 5, .int 1]
        (some ["a.b"]) true true "" exC5)) ∧
    (leavesFrom "" (selBroadcastMapN clipVectorNormLeafFn [.int 5, .int 1]
        (some ["a.b"]) true true "" exC5) =
      ((leavesFrom "" exC5).filter (fun pv => pv.1 = "a.b")).map
        (fun pv => (pv.1, clipVectorNormLeafFn (pv.2 :: [.int 5, .int 1]) pv.1))) ∧
    (ContainerWithGeneral.static_clip_vector_norm exC5 5 1 (some ["a.b"]) true
        false none =
      .ok (selBroadcastMapN clipVectorNormLeafFn [.int 5, .int 1]
        (some ["a.b"]) true false "" exC5)) ∧
    (ContainerWithGeneral.static_clip_vector_norm exC5 5 1 (some ["a.b"]) true
        true none =
      .ok (selBroadcastMapN clipVectorNormLeafFn [.int 5, .int 1]
        (some ["a.b"]) true true "" exC5))) :=
  ⟨by decide, by decide,
    c5_key_chain_filter exLeafFn clipVectorNormLeafFn [.int 5, .int 1] 5 1 exC5
      (by decide) (by decide)⟩

/-- C6: each Array instance method forwards to the same-named functional
operation applied to the wrapped native handle `self._data` together
with the remaining arguments, and the native result comes back wrapped
in an Array: `gather` and `roll` pass `self._data` directly, `gather_nd`
passes the wrapper `self`, which the functional layer normalises to the
same native handle, so all three agree with
`ivy.<op>(self._data, ...)`. -/
theorem c6_array_methods_forward (a : Arr) (indices : Sum Arr (List Int))
    (axis : Int) (shift : Int) (ax2 : Option Int) (fid : Nat) :
    (ArrayWithGeneral.gather a indices axis fid none =
        IvyAPI.gather fid (.inr a.data) indices axis none ∧
      ArrayWithGeneral.gather a indices axis fid none =
        .ok ⟨fid, gatherSem a.data (toNative indices)⟩) ∧
    (ArrayWithGeneral.gather_nd a indices fid none =
        IvyAPI.gather_nd fid (.inr a.data) indices none ∧
      ArrayWithGeneral.gather_nd a indices fid none =
        .ok ⟨fid, gatherNdSem a.data (toNative indices)⟩) ∧
    (ArrayWithManipulation.roll a shift ax2 fid none =
        IvyAPI.roll fid (.inr a.data) shift ax2 none ∧
      ArrayWithManipulation.roll a shift ax2 fid none =
        .ok ⟨fid, rollSem shift a.data⟩) :=
  ⟨⟨rfl, rfl⟩, ⟨rfl, rfl⟩, ⟨rfl, rfl⟩⟩

/-- The spec scenario container `{a: [0,1,2], b: [3,4,5]}`. -/
def exC7 : Node :=
  .cons "a" (.leaf (.arr [0, 1, 2])) (.cons "b" (.leaf (.arr [3, 4, 5])) .nil)

/-- The expected result `{a: [2,0,1], b: [5,3,4]}`. -/
def exC7res : Node :=
  .cons "a" (.leaf (.arr [2, 0, 1])) (.cons "b" (.leaf (.arr [5, 3, 4])) .nil)

/-- C7: calling `.roll(1)` (no axis, no out) on the Container
`{a: [0,1,2], b: [3,4,5]}` returns `{a: [2,0,1], b: [5,3,4]}`: every
leaf is shifted one place toward larger indices with wrap-around and
the key structure is preserved. -/
theorem c7_roll_scenario :
    ContainerWithManipulation.roll exC7 (.leaf (.int 1)) (.leaf .null)
        none true false none = .ok exC7res := by
  decide

/-- Whether a Python value is an iterable (`type(var) in [list, tuple,
dict]`). -/
def PyVal.isIt : PyVal → Bool
  | .it _ => true
  | _ => false

theorem astype32_strides_nonneg (a : NdArr) :
    (astype32 a).strides.any (fun s => s < 0) = false := by
  simp only [astype32, List.any_map, List.any_eq_false]
  intro s _
  simp

/-- The from-type predicate used in the C8 examples: match ndarrays. -/
def exFromType : PyVal → Bool := fun v => match v with | .nd _ => true | _ => false

/-- A to-type predicate matching everything. -/
def exToTypePred : PyVal → Bool := fun _ => true

/-- The identity conversion callable. -/
def exToTypeCallable : PyVal → PyVal := fun v => v

/-- C8 counterexample: with `keep_other = False` the claim says every
value that is not a matched-from_type ndarray is passed through per
`keep_other`, i.e. dropped; but a value matching `to_type` is appended
unchanged before the `keep_other` test, so the result keeps it. -/
theorem c8_counterexample :
    convertVars exFromType (some exToTypeCallable) false (some exToTypePred)
        [.other 0] = .ok [.other 0] ∧
      (Except.ok [PyVal.other 0] : Except String (List PyVal)) ≠ .ok [] := by
  constructor
  · simp [convertVars, exFromType, exToTypePred, Except.map]
  · intro h
    simp at h

/-- C8 (amended): for every ndarray matched by `from_type`, float64 data
is cast to float32 before the conversion callable is applied (and the
cast result, being a fresh numpy buffer, needs no stride copy), an array
with a negative stride is replaced by a contiguous copy before
conversion, and a stride-clean non-float64 array is converted as-is; a
non-iterable value not matching `from_type` is kept unchanged when it
matches `to_type`, and otherwise passed through exactly per
`keep_other`. -/
theorem c8_convert_vars (ft : PyVal → Bool) (f : PyVal → PyVal) (ko : Bool)
    (tt : Option (PyVal → Bool)) (a : NdArr) (v : PyVal) (rest : List PyVal) :
    (ft (.nd a) = true → a.dtype = .f64 →
      convertVars ft (some f) ko tt (.nd a :: rest) =
        (convertVars ft (some f) ko tt rest).map
          (fun rr => f (.nd (astype32 a)) :: rr)) ∧
    (ft (.nd a) = true → a.dtype ≠ .f64 →
      a.strides.any (fun s => s < 0) = true →
      convertVars ft (some f) ko tt (.nd a :: rest) =
        (convertVars ft (some f) ko tt rest).map
          (fun rr => f (.nd (copyArr a)) :: rr)) ∧
    (ft (.nd a) = true → a.dtype ≠ .f64 →
      a.strides.any (fun s => s < 0) = false →
      convertVars ft (some f) ko tt (.nd a :: rest) =
        (convertVars ft (some f) ko tt rest).map (fun rr => f (.nd a) :: rr)) ∧
    (v.isIt = false → ft v = false →
      (match tt with | some p => p v | none => false) = true →
      convertVars ft (some f) ko tt (v :: rest) =
        (convertVars ft (some f) ko tt rest).map (fun rr => v :: rr)) ∧
    (v.isIt = false → ft v = false →
      (match tt with | some p => p v | none => false) = false →
      convertVars ft (some f) ko tt (v :: rest) =
        (if ko then
          (convertVars ft (some f) ko tt rest).map (fun rr => v :: rr)
        else convertVars ft (some f) ko tt rest)) := by
  refine ⟨?_, ?_, ?_, ?_, ?_⟩
  · intro hft h64
    rw [convertVars.eq_def]
    simp only [hft, if_true, h64, astype32_strides_nonneg,
      Bool.false_eq_true, if_false]
  · intro hft h64 hneg
    rw [convertVars.eq_def]
    simp only [hft, if_true, h64, hneg, if_false, Bool.false_eq_true]
  · intro hft h64 hneg
    rw [convertVars.eq_def]
    simp only [hft, if_true, h64, hneg, if_false, Bool.false_eq_true]
  · intro hit hft htt
    cases v with
    | it elems => simp [PyVal.isIt] at hit
    | nd b =>
      rw [convertVars.eq_def]
      simp only [hft, Bool.false_eq_true, if_false, htt, if_true]
    | other t =>
      rw [convertVars.eq_def]
      simp only [hft, Bool.false_eq_true, if_false, htt, if_true]
  · intro hit hft htt
    cases v with
    | it elems => simp [PyVal.isIt] at hit
    | nd b =>
      rw [convertVars.eq_def]
      simp only [hft, Bool.false_eq_true, if_false, htt]
    | other t =>
      rw [convertVars.eq_def]
      simp only [hft, Bool.false_eq_true, if_false, htt]

/-- A float64 ndarray with a negative stride for the C8 witness. -/
def exNd64 : NdArr := ⟨.f64, [-8], [1, 2]⟩

theorem c8_convert_vars_witness :
    exFromType (.nd exNd64) = true ∧ exNd64.dtype = .f64 ∧
      convertVars exFromType (some exToTypeCallable) true none [.nd exNd64] =
        (convertVars exFromType (some exToTypeCallable) true none []).map
          (fun rr => exToTypeCallable (.nd (astype32 exNd64)) :: rr) :=
  ⟨rfl, rfl,
    (c8_convert_vars exFromType exToTypeCallable true none exNd64 (.other 0) []).1
      rfl rfl⟩

/-- C9: the numpy backend `shuffle` and `random_uniform` accept an `out`
parameter but never write into it and never return it: the result is
independent of `out`, the buffer bound to `out` is unchanged, and the
returned buffer is a fresh one, distinct from `out`. -/
theorem c9_numpy_random_ignore_out (perm : List Int → List Int)
    (sample : List Int) (h : NpHeap) (x o : Nat) (low high : Int)
    (ho : o < h.arrs.length) :
    (NumpyBackend.shuffle perm h x (some o) = NumpyBackend.shuffle perm h x none) ∧
    ((NumpyBackend.shuffle perm h x (some o)).2.read o = h.read o) ∧
    ((NumpyBackend.shuffle perm h x (some o)).1 ≠ o) ∧
    (NumpyBackend.random_uniform sample h low high (some o) =
      NumpyBackend.random_uniform sample h low high none) ∧
    ((NumpyBackend.random_uniform sample h low high (some o)).2.read o = h.read o) ∧
    ((NumpyBackend.random_uniform sample h low high (some o)).1 ≠ o) := by
  refine ⟨rfl, ?_, ?_, rfl, ?_, ?_⟩
  · simp only [NumpyBackend.shuffle, NpHeap.alloc, NpHeap.read]
    rw [List.getD_append _ _ _ _ ho]
  · simp [NumpyBackend.shuffle, NpHeap.alloc]
    omega
  · simp only [NumpyBackend.random_uniform, NpHeap.alloc, NpHeap.read]
    rw [List.getD_append _ _ _ _ ho]
  · simp [NumpyBackend.random_uniform, NpHeap.alloc]
    omega

theorem c9_numpy_random_ignore_out_witness :
    (0 < (⟨[[4, 5]]⟩ : NpHeap).arrs.length) ∧
    ((NumpyBackend.shuffle id ⟨[[4, 5]]⟩ 0 (some 0) =
        NumpyBackend.shuffle id ⟨[[4, 5]]⟩ 0 none) ∧
      ((NumpyBackend.shuffle id ⟨[[4, 5]]⟩ 0 (some 0)).2.read 0 =
        (⟨[[4, 5]]⟩ : NpHeap).read 0) ∧
      ((NumpyBackend.shuffle id ⟨[[4, 5]]⟩ 0 (some 0)).1 ≠ 0) ∧
      (NumpyBackend.random_uniform [3] ⟨[[4, 5]]⟩ 0 1 (some 0) =
        NumpyBackend.random_uniform [3] ⟨[[4, 5]]⟩ 0 1 none) ∧
      ((NumpyBackend.random_uniform [3] ⟨[[4, 5]]⟩ 0 1 (some 0)).2.read 0 =
        (⟨[[4, 5]]⟩ : NpHeap).read 0) ∧
      ((NumpyBackend.random_uniform [3] ⟨[[4, 5]]⟩ 0 1 (some 0)).1 ≠ 0)) :=
  ⟨by decide, c9_numpy_random_ignore_out id [3] ⟨[[4, 5]]⟩ 0 0 0 1 (by decide)⟩

/-- C10: `Container.zero_pad` is independent of its `value` parameter:
the mapped lambda calls `ivy.zero_pad(x_, pad_width=pad_width)` without
forwarding `value`, so any two values give identical result
containers. -/
theorem c10_zero_pad_ignores_value (self : Node) (pad_width : Nat × Nat)
    (v1 v2 : Int) (kcs : Option (List String)) (ta pr : Bool)
    (out : Option Node) :
    ContainerWithManipulation.zero_pad self pad_width v1 kcs ta pr out =
      ContainerWithManipulation.zero_pad self pad_width v2 kcs ta pr out := rfl
